import Mathlib

/-!
Shallow embedding of `orchestrator.py` (HA and Failover), the replication
cluster orchestrator: retry harness, ProxySQL routing-table reads/writes,
the GTID-based election, replication reconfiguration, and the failover and
reconcile phases of the main control-loop tick.

Conventions of the embedding:
* machine-facing strings (hostnames, MySQL statuses) stay `String`;
* ProxySQL's `mysql_servers` table is a `List` of rows
  `(hostname, hostgroup_id, status)` in table order;
* Python dicts (`ALL_NODES`, `contender_gtids`, grouping dicts) become
  association lists in insertion order; `del d[k]` on a missing key is a
  `KeyError`, modelled with `Except`/`Option`;
* network effects are an environment record of final outcomes: each
  `@keeptrying`-wrapped probe collapses to the outcome it settles on;
* side effects on the proxy and on MySQL nodes are recorded as an `Act`
  trace in program order.
-/

namespace Orchestrator

/-- `WRITE_HG`: hostgroup id of the writer group. -/
def WRITE_HG : Nat := 10

/-- `READ_HG`: hostgroup id of the reader group. -/
def READ_HG : Nat := 20

/-- `BROKEN_HG`: hostgroup id of the quarantine ("broken") group. -/
def BROKEN_HG : Nat := 30

/-- Unified node status computed by the orchestrator
(`Literal["online", "offline", "broken"]`). -/
inductive NStatus where
  | online
  | offline
  | broken
deriving DecidableEq, Repr

/-- One row of ProxySQL's `mysql_servers` table:
`(hostname, hostgroup_id, status)`. -/
abbrev Row := String × Nat × String

/-- The `mysql_servers` routing table, in table order. -/
abbrev Table := List Row

/-- Side effects issued to the proxy and to MySQL nodes, in program order. -/
inductive Act where
  /-- `set_proxysql_master n`: delete writer rows, insert `(WRITE_HG, n)`. -/
  | setWriter (n : String)
  /-- `stop_replication n`: `STOP SLAVE; RESET SLAVE ALL` on `n`. -/
  | stopRepl (n : String)
  /-- `set_proxysql_status n raw`: `UPDATE mysql_servers SET status=raw
  WHERE hostname=n`. -/
  | setStatus (n : String) (raw : String)
  /-- `_move_node_to_broken_hg n`: delete all rows of `n`, insert into
  `BROKEN_HG`. -/
  | moveBroken (n : String)
  /-- `SHOW SLAVE STATUS` read on `n` inside `set_replication_source`. -/
  | observeStatus (n : String)
  /-- `STOP SLAVE` on `n` inside `set_replication_source`. -/
  | stopSlave (n : String)
  /-- `CHANGE MASTER TO MASTER_HOST=m ...` on `n`. -/
  | changeSource (n : String) (m : String)
  /-- `START SLAVE` on `n` inside `set_replication_source`. -/
  | startSlave (n : String)
deriving DecidableEq, Repr

/-- Does the action write to the proxy's routing table
(`mysql_servers`)?  Reads and per-node MySQL statements do not. -/
def Act.isProxyWrite : Act → Bool
  | .setWriter _ => true
  | .setStatus _ _ => true
  | .moveBroken _ => true
  | _ => false

/-! ### Retry harness: `keeptrying` (orchestrator.py lines 82-128)

A wrapped callable is modelled as a stream `f : Nat → PyRes α` of the
results of its successive invocations (invocation `0` first).  The
harness itself performs no operation that can raise: it only inspects
the returned value, so in the embedding it is a total function. -/

/-- The value returned by a `@keeptrying`-wrapped Python function:
either a bare boolean, or a tuple whose first element is the success
flag (an empty tuple counts as not-success), carrying a payload. -/
inductive PyRes (α : Type) where
  | bare (b : Bool)
  | tup (b : Bool) (payload : α)
  | emptyTup
deriving DecidableEq, Repr

/-- The success flag `keeptrying` extracts from a result
(`result[0]` of a non-empty tuple, the bare boolean otherwise,
`False` for an empty tuple). -/
def PyRes.isSuccess : PyRes α → Bool
  | .bare b => b
  | .tup b _ => b
  | .emptyTup => false

/-- Inner loop of `keeptrying` with a finite budget: `attempt` is the
index of the invocation about to run, `remaining` how many further
retries the budget still allows after it.  Returns the surfaced result
and the number of invocations performed in total. -/
def keeptryingAux (f : Nat → PyRes α) (attempt : Nat) : Nat → PyRes α × Nat
  | 0 =>
      let r := f attempt
      (r, attempt + 1)
  | remaining + 1 =>
      let r := f attempt
      if r.isSuccess then (r, attempt + 1)
      else keeptryingAux f (attempt + 1) remaining

/-- `keeptrying` with a finite `max_retry_count = N` applied to the
stream `f` of invocation results: the Python loop runs invocations for
`tries = 1, …, N+1`, stopping early on the first success, and finally
returns the last result obtained. -/
def keeptrying (N : Nat) (f : Nat → PyRes α) : PyRes α × Nat :=
  keeptryingAux f 0 N

/-! ### Proxy routing-table reads and writes -/

/-- The writer-hostgroup rows, projected to hostnames:
`SELECT hostname FROM mysql_servers WHERE hostgroup_id = WRITE_HG`. -/
def writerRows (table : Table) : List String :=
  (table.filter (fun r => r.2.1 == WRITE_HG)).map (fun r => r.1)

/-- `get_master_from_proxysql` (lines 258-278), given the current
routing table: one writer row yields `(True, hostname)`; none yields
`(True, None)` (no master configured); several yield the split-brain
failure `(False, None)`, with no write to the table. -/
def get_master_from_proxysql (table : Table) : Bool × Option String :=
  match writerRows table with
  | [w] => (true, some w)
  | [] => (true, none)
  | _ :: _ :: _ => (false, none)

/-- The raw ProxySQL status string that `set_proxysql_status` writes:
`'ONLINE' if status == "online" else 'OFFLINE_HARD'`. -/
def rawStatusOf (status : NStatus) : String :=
  if status = NStatus.online then "ONLINE" else "OFFLINE_HARD"

/-- `set_proxysql_status` (lines 481-503) as a routing-table
transformer: `UPDATE mysql_servers SET status=raw WHERE hostname=n` —
note the `WHERE` clause constrains only the hostname, not the
hostgroup. -/
def set_proxysql_status (table : Table) (n : String) (status : NStatus) : Table :=
  table.map (fun r => if r.1 == n then (r.1, r.2.1, rawStatusOf status) else r)

/-! ### Unified status map: `get_proxysql_state_from_nodes_in_host_groups`
(lines 280-344) -/

/-- Keep the first occurrence of every hostname not yet in `seen`,
preserving order. -/
def dedupFirstAux (seen : List String) : List String → List String
  | [] => []
  | x :: xs =>
      if seen.contains x then dedupFirstAux seen xs
      else x :: dedupFirstAux (x :: seen) xs

/-- Keep the first occurrence of every hostname, preserving order —
the key order of the `node_entries` dict built with `setdefault`. -/
def dedupFirst (l : List String) : List String :=
  dedupFirstAux [] l

/-- The SQL result rows: only rows whose hostgroup is in the queried
`host_groups` come back from `mysql_servers`. -/
def queriedRows (rows : Table) (hostGroups : List Nat) : Table :=
  rows.filter (fun r => hostGroups.contains r.2.1)

/-- The `(hostgroup_id, status.upper())` entries collected for one
hostname in `node_entries`, in record order. -/
def nodeEntries (recs : Table) (n : String) : List (Nat × String) :=
  (recs.filter (fun r => r.1 == n)).map (fun r => (r.2.1, r.2.2.toUpper))

/-- The per-node status hierarchy of the source: any entry in
hostgroup 30 → `broken`; else all entries `ONLINE` → `online`;
else `offline`. -/
def unifiedStatus (entries : List (Nat × String)) : NStatus :=
  if entries.any (fun e => e.1 == 30) then NStatus.broken
  else if entries.all (fun e => e.2 == "ONLINE") then NStatus.online
  else NStatus.offline

/-- `get_proxysql_state_from_nodes_in_host_groups` (lines 280-344) on a
given routing table: group the queried rows by hostname
(first-occurrence order, as the Python dict does) and compute each
node's unified status. -/
def get_proxysql_state (rows : Table) (hostGroups : List Nat) :
    List (String × NStatus) :=
  let recs := queriedRows rows hostGroups
  (dedupFirst (recs.map (fun r => r.1))).map
    (fun n => (n, unifiedStatus (nodeEntries recs n)))

/-! ### Election engine: the inner loop of `choose_new_master`
(lines 610-630) -/

/-- A GTID-executed set, abstracted to the set of transaction ids it
contains.  `GTID_SUBSET(a, b)` on the oracle node decides containment
of the corresponding sets. -/
abbrev Gtid := List Nat

/-- `GTID_SUBSET(g2, g1)`: every transaction of `g2` is in `g1`
(the containment predicate the oracle MySQL node evaluates). -/
def gtidSubset (g2 g1 : Gtid) : Bool :=
  g2.all (fun x => g1.contains x)

/-- Inner check for candidate `n1` with set `g1`: for every other
candidate `(n2, g2)` (same name is skipped via `continue`),
`GTID_SUBSET(g2, g1)` holds. -/
def dominatesAll (cands : List (String × Gtid)) (n1 : String) (g1 : Gtid) : Bool :=
  cands.all (fun p => p.1 == n1 || gtidSubset p.2 g1)

/-- Scan of `contender_gtids.items()`: return the first candidate that
dominates all others, `none` (→ `return False, None`, "could not
determine a single most advanced replica") if the scan is exhausted. -/
def electFrom (cands : List (String × Gtid)) :
    List (String × Gtid) → Option String
  | [] => none
  | (n, g) :: rest =>
      if dominatesAll cands n g then some n else electFrom cands rest

/-- The election over the candidate map `contender_gtids`
(insertion-ordered association list). -/
def electMaster (cands : List (String × Gtid)) : Option String :=
  electFrom cands cands

/-! ### Environment of final network outcomes -/

/-- `SHOW SLAVE STATUS` row, restricted to the fields the source
reads: `Master_Host`, `Slave_IO_Running`, `Slave_SQL_Running`
(MySQL reports the thread flags as the strings `"Yes"`/`"No"`). -/
structure RepStatus where
  masterHost : String
  ioRunning : String
  sqlRunning : String
deriving DecidableEq, Repr

/-- Final outcomes of the network probes and proxy writes during one
tick.  Each `@keeptrying`-wrapped call collapses to the result it
ultimately surfaces. -/
structure Env where
  /-- `is_online n` (after its retries). -/
  online : String → Bool
  /-- `get_gtid n`: `some g` when it succeeds with a non-empty GTID
  string (`if _success and gtid`), `none` otherwise. -/
  gtid : String → Option Gtid
  /-- `mysql_connect(n, MYSQL_USER, MYSQL_PASS)` succeeds. -/
  connectOk : String → Bool
  /-- First `SHOW SLAVE STATUS` on `n` in `set_replication_source`
  (`none` = not configured as a replica). -/
  repStatus : String → Option RepStatus
  /-- Re-read of `SHOW SLAVE STATUS` after the re-point. -/
  postRepStatus : String → Option RepStatus
  /-- `set_proxysql_master n` (after its retries) succeeds. -/
  setMasterOk : String → Bool

/-! ### `set_replication_source` (lines 515-579) -/

/-- Is `st` the status of a healthy replica of `master`
(`Master_Host == master`, both threads `Yes`)? -/
def isHealthyReplicaOf (master : String) : Option RepStatus → Bool
  | some st =>
      st.masterHost == master && st.ioRunning == "Yes" && st.sqlRunning == "Yes"
  | none => false

/-- `set_replication_source master node`: returns the `(success,
status_code)` pair and the trace of statements issued on `node`.
Already-healthy replicas are left untouched after the status read;
otherwise the node is stopped, re-pointed with `CHANGE MASTER`,
restarted, and re-classified from the post status (`(True, 0)`
healthy, `(True, -1)` persistent failure). Connection failure gives
`(False, 1)`. -/
def set_replication_source (env : Env) (master node : String) :
    (Bool × Int) × List Act :=
  if !env.connectOk node then ((false, 1), [])
  else
    let obs : List Act := [Act.observeStatus node]
    if isHealthyReplicaOf master (env.repStatus node) then
      ((true, 0), obs)
    else
      let acts := obs ++
        [Act.stopSlave node, Act.changeSource node master,
         Act.startSlave node, Act.observeStatus node]
      match env.postRepStatus node with
      | some st =>
          if st.sqlRunning == "Yes" && st.ioRunning == "Yes" then ((true, 0), acts)
          else ((true, -1), acts)
      | none => ((true, -1), acts)

/-! ### The `ALL_NODES` dict and the phases of a tick
(main loop, lines 1015-1067) -/

/-- `ALL_NODES`: hostname → unified status, insertion-ordered. -/
abbrev AllNodes := List (String × NStatus)

/-- Python `d[k] = v`: overwrite in place if the key exists, append
otherwise. -/
def setKey (nodes : AllNodes) (k : String) (v : NStatus) : AllNodes :=
  if (List.lookup k nodes).isSome then
    nodes.map (fun p => if p.1 == k then (p.1, v) else p)
  else nodes ++ [(k, v)]

/-- Python `del d[k]`: remove the entry, `none` (a `KeyError`) when the
key is absent. -/
def delKey (nodes : AllNodes) (k : String) : Option AllNodes :=
  if (List.lookup k nodes).isSome then
    some (nodes.filter (fun p => p.1 != k))
  else none

/-- Prune loop (lines 1030-1033): drop from `ALL_NODES` every node not
in `recognized_nodes`. -/
def pruneNodes (nodes : AllNodes) (recognized : List String) : AllNodes :=
  nodes.filter (fun p => recognized.contains p.1)

/-- `choose_new_master` (lines 581-630).  Contenders are the
non-broken, non-master, reachable nodes of `ALL_NODES`; their GTIDs
are collected (dropping failures and empty sets); one contender is the
oracle whose connection must succeed; then the election runs.  The
source's `tuple[bool, str | None]` return collapses to `Option String`
(it returns `(True, node)` on success and `(False, None)` on every
failure, never `(True, None)`). -/
def choose_new_master (env : Env) (master : Option String) (nodes : AllNodes) :
    Option String :=
  let contenders := (nodes.filter
    (fun p => p.2 ≠ NStatus.broken && master ≠ some p.1 && env.online p.1)).map
    (fun p => p.1)
  match contenders.filterMap (fun n => (env.gtid n).map (fun g => (n, g))) with
  | [] => none
  | (c, g) :: rest =>
      if env.connectOk c then electMaster ((c, g) :: rest) else none

/-- Failover branch of the tick (lines 1035-1043), run after the prune
loop.  When the recorded master is not recognized or unreachable:
first `del ALL_NODES[CURRENT_MASTER]` if unrecognized (a `KeyError`,
i.e. `Except.error`, when the key is absent — and `CURRENT_MASTER`
being `None` can never be a key); then elect; on a successful
election and proxy writer update, promote: `stop_replication`, update
`CURRENT_MASTER`, set the node online in the proxy and in
`ALL_NODES`. -/
def failoverStep (env : Env) (master : Option String) (nodes : AllNodes)
    (recognized : List String) : Except String (Option String × AllNodes × List Act) :=
  let notRecognized : Bool :=
    match master with
    | none => true
    | some m => !recognized.contains m
  let masterOffline : Bool :=
    match master with
    | none => false
    | some m => !env.online m
  if notRecognized || masterOffline then do
    let nodes1 ←
      if notRecognized then
        match master with
        | none => Except.error "KeyError: None"
        | some m =>
            match delKey nodes m with
            | some ns => Except.ok ns
            | none => Except.error ("KeyError: " ++ m)
      else Except.ok nodes
    match choose_new_master env master nodes1 with
    | some w =>
        if env.setMasterOk w then
          Except.ok (some w, setKey nodes1 w NStatus.online,
            [Act.setWriter w, Act.stopRepl w, Act.setStatus w "ONLINE"])
        else
          Except.ok (master, nodes1, [Act.setWriter w])
    | none => Except.ok (master, nodes1, [])
  else Except.ok (master, nodes, [])

/-- Prune loop followed by the failover branch — the sequence the tick
executes at lines 1030-1043. -/
def pruneThenFailover (env : Env) (master : Option String) (nodes : AllNodes)
    (recognized : List String) : Except String (Option String × AllNodes × List Act) :=
  failoverStep env master (pruneNodes nodes recognized) recognized

/-- Body of the per-replica reconcile loop (lines 1046-1062) for one
recognized node (`node != CURRENT_MASTER` already checked by the
caller): reachable non-broken nodes get `set_replication_source` and a
status write according to its result; the rest are set offline unless
broken. -/
def reconcileNode (env : Env) (master : String) (nodes : AllNodes) (node : String) :
    AllNodes × List Act :=
  if List.lookup node nodes ≠ some NStatus.broken && env.online node then
    let ((succ, code), acts) := set_replication_source env master node
    if !succ then
      (setKey nodes node NStatus.offline, acts ++ [Act.setStatus node "OFFLINE_HARD"])
    else if code = -1 then
      (setKey nodes node NStatus.broken, acts ++ [Act.moveBroken node])
    else if code = 0 then
      (setKey nodes node NStatus.online, acts ++ [Act.setStatus node "ONLINE"])
    else (nodes, acts)
  else
    if List.lookup node nodes ≠ some NStatus.broken then
      (setKey nodes node NStatus.offline, [Act.setStatus node "OFFLINE_HARD"])
    else (nodes, [])

/-- Per-replica reconcile phase (lines 1045-1062): iterate the
recognized nodes, skipping the current master. -/
def reconcileStep (env : Env) (master : String) (nodes : AllNodes) :
    List String → AllNodes × List Act
  | [] => (nodes, [])
  | node :: rest =>
      if node ≠ master then
        let (ns, acts) := reconcileNode env master nodes node
        let (ns2, acts2) := reconcileStep env master ns rest
        (ns2, acts ++ acts2)
      else reconcileStep env master nodes rest

/-! ### Spec-side definitions (for refinement comparison only)

These two follow the wording of the specification, not the source:
the source contains no quorum computation. -/

/-- Modelled from the spec: `|{n : status[n] = online}|`, the number of
nodes whose recorded status is `online`. -/
def specOnlineCount (nodes : AllNodes) : Nat :=
  (nodes.filter (fun p => p.2 == NStatus.online)).length

/-- Modelled from the spec: the static quorum `⌊N/2⌋ + 1` over the
number `N` of recognized nodes. -/
def specQuorum (n : Nat) : Nat := n / 2 + 1

/-- Modelled from the spec (section 4.2): the unified status of node
`n` over the rows of the queried groups — `broken` if some queried row
of `n` is in the quarantine group `30`; else `online` if every queried
row of `n` has raw status `ONLINE`; else `offline`. -/
def specUnifiedStatus (rows : Table) (groups : List Nat) (n : String) : NStatus :=
  if rows.any (fun r => groups.contains r.2.1 && (r.1 == n && r.2.1 == 30)) then
    NStatus.broken
  else if rows.all
      (fun r => !groups.contains r.2.1 || (!(r.1 == n) || r.2.2.toUpper == "ONLINE")) then
    NStatus.online
  else NStatus.offline

/-! ### Concrete fixtures used by counterexamples and witnesses -/

/-- Environment in which only node `B` is reachable and only `B` has a
retrievable GTID; proxy writes succeed. -/
def cE1 : Env where
  online := fun n => n == "B"
  gtid := fun n => if n == "B" then some [1] else none
  connectOk := fun _ => true
  repStatus := fun _ => none
  postRepStatus := fun _ => none
  setMasterOk := fun _ => true

/-- Node map with only one online node (`B`) out of three. -/
def cNodes1 : AllNodes :=
  [("A", NStatus.offline), ("B", NStatus.online), ("C", NStatus.offline)]

/-- Environment in which `B` and `C` are reachable with incomparable
GTID sets (`{1}` vs `{2}`): the election is ambiguous. -/
def cE2 : Env where
  online := fun n => n == "B" || n == "C"
  gtid := fun n =>
    if n == "B" then some [1] else if n == "C" then some [2] else none
  connectOk := fun _ => true
  repStatus := fun _ => none
  postRepStatus := fun _ => none
  setMasterOk := fun _ => true

/-- Node map in which the recorded master `A` is offline while `B` and
`C` are online. -/
def cNodes2 : AllNodes :=
  [("A", NStatus.offline), ("B", NStatus.online), ("C", NStatus.online)]

/-- Fully healthy steady-state environment: every node reachable, and
every node other than `A` a healthy replica of `A`. -/
def cE4 : Env where
  online := fun _ => true
  gtid := fun _ => none
  connectOk := fun _ => true
  repStatus := fun n =>
    if n == "A" then none
    else some { masterHost := "A", ioRunning := "Yes", sqlRunning := "Yes" }
  postRepStatus := fun _ => none
  setMasterOk := fun _ => true

/-- Node map of the healthy steady state: `A` (the master), `B` and
`C` all online. -/
def cNodes4 : AllNodes :=
  [("A", NStatus.online), ("B", NStatus.online), ("C", NStatus.online)]

/-- Routing table holding a single quarantine-group row. -/
def qTable : Table := [("X", 30, "OFFLINE_HARD")]

/-! ## Theorems -/

/-- C6: `get_master_from_proxysql` returns the single writer hostname
when exactly one row exists in the writer group, returns no master
when the writer group is empty, and fails (the split-brain report,
returning `(False, None)` and issuing no write to the routing table)
whenever more than one writer row exists. -/
theorem get_master_cases (table : Table) :
    (∀ w, writerRows table = [w] →
      get_master_from_proxysql table = (true, some w)) ∧
    (writerRows table = [] → get_master_from_proxysql table = (true, none)) ∧
    (2 ≤ (writerRows table).length →
      get_master_from_proxysql table = (false, none)) := by
  refine ⟨fun w hw => ?_, fun h0 => ?_, fun h2 => ?_⟩
  · simp [get_master_from_proxysql, hw]
  · simp [get_master_from_proxysql, h0]
  · match hv : writerRows table with
    | [] => rw [hv] at h2; simp at h2
    | [w] => rw [hv] at h2; simp at h2
    | a :: b :: l => simp [get_master_from_proxysql, hv]

/-- Witness for C6: a table whose writer group holds exactly the row
for `A` yields `(True, some A)`. -/
theorem get_master_cases_witness :
    get_master_from_proxysql [("A", 10, "ONLINE"), ("B", 20, "ONLINE")] =
      (true, some "A") :=
  (get_master_cases _).1 "A" (by decide)

/-- Counterexample for C9: `set_proxysql_status` has no hostgroup
restriction in its `UPDATE`, so a row of the matching hostname sitting
in the quarantine group `30` is rewritten as well — the claim says
rows in the quarantine group are left unchanged. -/
theorem set_status_updates_quarantine_counterexample :
    set_proxysql_status qTable "X" NStatus.online = [("X", 30, "ONLINE")] ∧
    set_proxysql_status qTable "X" NStatus.online ≠ qTable := by
  constructor
  · rfl
  · decide

/-- C9 (amended): `set_proxysql_status` updates the raw-status field of
every row matching the hostname in every hostgroup, including the
quarantine group; rows of other hostnames are unchanged, and no row is
added or removed. -/
theorem set_status_all_groups_frame (table : Table) (n : String) (s : NStatus) :
    (set_proxysql_status table n s).length = table.length ∧
    ∀ i : Nat, (set_proxysql_status table n s)[i]? =
      (table[i]?).map
        (fun r => if r.1 = n then (r.1, r.2.1, rawStatusOf s) else r) := by
  constructor
  · simp [set_proxysql_status]
  · intro i
    simp only [set_proxysql_status, List.getElem?_map]
    cases table[i]? with
    | none => rfl
    | some r =>
        by_cases h : r.1 = n
        · simp [h]
        · simp [h]

/-- Auxiliary characterization of the bounded retry loop, generalized
over the index `a` of the invocation about to run and the remaining
budget. -/
theorem keeptryingAux_spec {α : Type} (f : Nat → PyRes α) :
    ∀ (rem a : Nat),
      a < (keeptryingAux f a rem).2 ∧
      (keeptryingAux f a rem).2 ≤ a + rem + 1 ∧
      (keeptryingAux f a rem).1 = f ((keeptryingAux f a rem).2 - 1) ∧
      (∀ k, a ≤ k → k < (keeptryingAux f a rem).2 - 1 →
        (f k).isSuccess = false) ∧
      ((f ((keeptryingAux f a rem).2 - 1)).isSuccess = true ∨
        (keeptryingAux f a rem).2 = a + rem + 1) := by
  intro rem
  induction rem with
  | zero =>
      intro a
      refine ⟨Nat.lt_succ_self a, Nat.le_refl _, rfl, ?_, Or.inr rfl⟩
      intro k hak hk
      simp only [keeptryingAux, Nat.add_sub_cancel] at hk
      exact absurd hak (Nat.not_le_of_lt hk)
  | succ rem ih =>
      intro a
      by_cases hs : (f a).isSuccess = true
      · have hred : keeptryingAux f a (rem + 1) = (f a, a + 1) := by
          simp [keeptryingAux, hs]
        rw [hred]
        refine ⟨Nat.lt_succ_self a, ?_, by simp, ?_, Or.inl (by simpa using hs)⟩
        · omega
        · intro k hak hk
          simp only [Nat.add_sub_cancel] at hk
          exact absurd hak (Nat.not_le_of_lt hk)
      · have hs' : (f a).isSuccess = false := by
          cases h : (f a).isSuccess
          · rfl
          · exact absurd h hs
        have hred : keeptryingAux f a (rem + 1) = keeptryingAux f (a + 1) rem := by
          simp [keeptryingAux, hs']
        rw [hred]
        obtain ⟨h1, h2, h3, h4, h5⟩ := ih (a + 1)
        refine ⟨Nat.lt_of_succ_le (Nat.le_of_lt h1), by omega, h3, ?_, ?_⟩
        · intro k hak hk
          rcases Nat.eq_or_lt_of_le hak with heq | hlt
          · rw [← heq]; exact hs'
          · exact h4 k hlt hk
        · rcases h5 with h | h
          · exact Or.inl h
          · exact Or.inr (by omega)

/-- C10: for a finite retry budget `N`, `keeptrying` invokes the
wrapped operation at most `N + 1` times, surfaces the full result of
the last invocation it ran, every invocation before that one had a
false success flag (so the first success is returned immediately), and
either that last invocation succeeded or the budget was exhausted
(`N + 1` invocations) and its possibly-failing result is returned.
The harness itself is a total function of the result stream: it never
raises. -/
theorem keeptrying_correct {α : Type} (N : Nat) (f : Nat → PyRes α) :
    (keeptrying N f).2 ≤ N + 1 ∧
    (keeptrying N f).1 = f ((keeptrying N f).2 - 1) ∧
    (∀ k, k < (keeptrying N f).2 - 1 → (f k).isSuccess = false) ∧
    ((f ((keeptrying N f).2 - 1)).isSuccess = true ∨
      (keeptrying N f).2 = N + 1) := by
  obtain ⟨_, h2, h3, h4, h5⟩ := keeptryingAux_spec f N 0
  exact ⟨by simpa using h2, h3, fun k hk => h4 k (Nat.zero_le k) hk, by simpa using h5⟩

/-- Witness for C10: an operation failing on its first invocation and
succeeding on its second, under budget `2`, is invoked twice. -/
theorem keeptrying_correct_witness :
    (keeptrying 2 (fun k => PyRes.bare (α := Unit) (k == 1))).2 ≤ 3 :=
  (keeptrying_correct 2 _).1

/-- Helper: on a reachable node already replicating healthily from
`master`, `set_replication_source` returns `(True, 0)` and issues only
the status observation.  Shared by the idempotence theorem and by the
reconcile-phase theorems. -/
theorem srs_healthy (env : Env) (master node : String)
    (hconn : env.connectOk node = true)
    (hok : isHealthyReplicaOf master (env.repStatus node) = true) :
    set_replication_source env master node =
      ((true, 0), [Act.observeStatus node]) := by
  simp [set_replication_source, hconn, hok]

/-- C7: `set_replication_source` is idempotent — on a node already
replicating from the intended source with both IO and SQL threads
running, it returns the healthy result `(True, 0)` and its trace is
exactly the one `SHOW SLAVE STATUS` observation: no CHANGE-of-source,
no STOP SLAVE, no START SLAVE. -/
theorem set_replication_source_idempotent (env : Env) (master node : String)
    (hconn : env.connectOk node = true)
    (hok : isHealthyReplicaOf master (env.repStatus node) = true) :
    set_replication_source env master node =
      ((true, 0), [Act.observeStatus node]) :=
  srs_healthy env master node hconn hok

/-- Witness for C7: node `B` of the healthy fixture, already a healthy
replica of `A`, is left untouched after the status read. -/
theorem set_replication_source_idempotent_witness :
    set_replication_source cE4 "A" "B" = ((true, 0), [Act.observeStatus "B"]) :=
  set_replication_source_idempotent cE4 "A" "B" rfl (by decide)

/-- Helper: the per-candidate check of the election — `dominatesAll`
holds iff every other candidate's GTID set is contained in this one's. -/
theorem dominatesAll_iff (cands : List (String × Gtid)) (n : String) (g : Gtid) :
    dominatesAll cands n g = true ↔
      ∀ b gb, (b, gb) ∈ cands → b ≠ n → gtidSubset gb g = true := by
  simp only [dominatesAll, List.all_eq_true, Bool.or_eq_true, beq_iff_eq]
  constructor
  · intro h b gb hmem hne
    rcases h (b, gb) hmem with h1 | h2
    · exact absurd h1 hne
    · exact h2
  · intro h x hmem
    by_cases hx : x.1 = n
    · exact Or.inl hx
    · exact Or.inr (h x.1 x.2 (by simpa using hmem) hx)

/-- Helper: negation of `dominatesAll` — some other candidate's GTID
set is not contained in this one's. -/
theorem dominatesAll_eq_false_iff (cands : List (String × Gtid)) (n : String)
    (g : Gtid) :
    dominatesAll cands n g = false ↔
      ∃ b gb, (b, gb) ∈ cands ∧ b ≠ n ∧ gtidSubset gb g = false := by
  rw [← Bool.not_eq_true, dominatesAll_iff]
  push_neg
  constructor
  · rintro ⟨b, gb, hmem, hne, hs⟩
    exact ⟨b, gb, hmem, hne, by simpa using hs⟩
  · rintro ⟨b, gb, hmem, hne, hs⟩
    exact ⟨b, gb, hmem, hne, by simp [hs]⟩

/-- Helper: a successful scan returns a candidate of the list that
passes `dominatesAll`. -/
theorem electFrom_some (cands : List (String × Gtid)) :
    ∀ rest a, electFrom cands rest = some a →
      ∃ ga, (a, ga) ∈ rest ∧ dominatesAll cands a ga = true := by
  intro rest
  induction rest with
  | nil => intro a h; simp [electFrom] at h
  | cons p rest ih =>
      intro a h
      obtain ⟨n, g⟩ := p
      by_cases hd : dominatesAll cands n g = true
      · have : n = a := by simpa [electFrom, hd] using h
        subst this
        exact ⟨g, List.mem_cons_self _ _, hd⟩
      · have h' : electFrom cands rest = some a := by
          simpa [electFrom, hd] using h
        obtain ⟨ga, hmem, hga⟩ := ih a h'
        exact ⟨ga, List.mem_cons_of_mem _ hmem, hga⟩

/-- Helper: the scan is exhausted iff no scanned candidate passes
`dominatesAll`. -/
theorem electFrom_none (cands : List (String × Gtid)) :
    ∀ rest, electFrom cands rest = none ↔
      ∀ p ∈ rest, dominatesAll cands p.1 p.2 = false := by
  intro rest
  induction rest with
  | nil => simp [electFrom]
  | cons p rest ih =>
      obtain ⟨n, g⟩ := p
      cases hd : dominatesAll cands n g with
      | true => simp [electFrom, hd]
      | false =>
          have hstep : electFrom cands ((n, g) :: rest) = electFrom cands rest := by
            simp [electFrom, hd]
          rw [hstep, ih]
          constructor
          · intro h q hq
            rcases List.mem_cons.mp hq with heq | hq'
            · rw [heq]; exact hd
            · exact h q hq'
          · intro h q hq
            exact h q (List.mem_cons_of_mem _ hq)

/-- C2: over any non-empty candidate map, the election returns a
candidate whose GTID set contains every other candidate's GTID set
(containment as evaluated by the single oracle node), and returns the
ambiguous result (`None`, surfaced as `(False, None)`) exactly when no
candidate dominates all the others. -/
theorem electMaster_correct (l : List (String × Gtid)) (hne : l ≠ []) :
    (∀ a, electMaster l = some a →
      ∃ ga, (a, ga) ∈ l ∧
        ∀ b gb, (b, gb) ∈ l → b ≠ a → gtidSubset gb ga = true) ∧
    (electMaster l = none ↔
      ∀ a ga, (a, ga) ∈ l →
        ∃ b gb, (b, gb) ∈ l ∧ b ≠ a ∧ gtidSubset gb ga = false) := by
  constructor
  · intro a h
    obtain ⟨ga, hmem, hdom⟩ := electFrom_some l l a h
    exact ⟨ga, hmem, (dominatesAll_iff l a ga).mp hdom⟩
  · rw [electMaster, electFrom_none l l]
    constructor
    · intro h a ga hmem
      exact (dominatesAll_eq_false_iff l a ga).mp (h (a, ga) hmem)
    · intro h p hp
      exact (dominatesAll_eq_false_iff l p.1 p.2).mpr
        (h p.1 p.2 (by simpa using hp))

/-- Witness for C2: of the candidates `B ↦ {1, 2}` and `C ↦ {1}`, the
election returns `B`, whose set contains the other's. -/
theorem electMaster_correct_witness :
    ∃ ga, (("B" : String), ga) ∈ [(("B" : String), ([1, 2] : Gtid)), ("C", [1])] ∧
      ∀ b gb, (b, gb) ∈ [(("B" : String), ([1, 2] : Gtid)), ("C", [1])] →
        b ≠ "B" → gtidSubset gb ga = true :=
  (electMaster_correct _ (by decide)).1 "B" (by decide)

/-- Counterexample for C1: a concrete tick state with three recognized
nodes in which only one node is `online` — below the static quorum
`⌊3/2⌋ + 1 = 2` — and in which the failover branch nevertheless
promotes `B` (the `set_proxysql_master` call appears in the trace and
the primary pointer moves to `B`).  The source has no quorum
computation at all. -/
theorem promotion_below_quorum_counterexample :
    specOnlineCount cNodes1 < specQuorum 3 ∧
    failoverStep cE1 (some "A") cNodes1 ["A", "B", "C"] =
      Except.ok (some "B", cNodes1,
        [Act.setWriter "B", Act.stopRepl "B", Act.setStatus "B" "ONLINE"]) := by
  constructor
  · decide
  · rfl

/-- C1 (amended): promotion is gated only on the election and on the
proxy writer update, never on a quorum of online nodes — when the
recognized primary is unreachable, a winning election whose
`set_proxysql_master` succeeds promotes (for any online count,
including counts below `⌊N/2⌋ + 1`), and a failed election promotes
nothing and keeps the last known primary pointer. -/
theorem failover_promotion_unconditional (env : Env) (m : String)
    (nodes : AllNodes) (recognized : List String)
    (hrec : recognized.contains m = true) (hoff : env.online m = false) :
    (∀ w, choose_new_master env (some m) nodes = some w →
      env.setMasterOk w = true →
      failoverStep env (some m) nodes recognized =
        Except.ok (some w, setKey nodes w NStatus.online,
          [Act.setWriter w, Act.stopRepl w, Act.setStatus w "ONLINE"])) ∧
    (choose_new_master env (some m) nodes = none →
      failoverStep env (some m) nodes recognized =
        Except.ok (some m, nodes, [])) := by
  have hmem : m ∈ recognized := by simpa using hrec
  constructor
  · intro w hw hset
    simp [failoverStep, hmem, hoff, Bind.bind, Except.bind, hw, hset]
  · intro hamb
    simp [failoverStep, hmem, hoff, Bind.bind, Except.bind, hamb]

/-- Witness for C1 (amended): in the below-quorum fixture, the
election returns `B` and the failover branch promotes it. -/
theorem failover_promotion_unconditional_witness :
    failoverStep cE1 (some "A") cNodes1 ["A", "B", "C"] =
      Except.ok (some "B", setKey cNodes1 "B" NStatus.online,
        [Act.setWriter "B", Act.stopRepl "B", Act.setStatus "B" "ONLINE"]) :=
  (failover_promotion_unconditional cE1 "A" cNodes1 ["A", "B", "C"]
    (by decide) rfl).1 "B" rfl rfl

/-- Counterexample for C3: with the recorded primary `A` recognized
but unreachable and the election ambiguous (`B` and `C` carry
incomparable GTID sets), the failover branch issues no `set_writer`
(empty trace) — but the primary pointer stays `some A`, it does not
become none as the claim states. -/
theorem ambiguous_keeps_master_counterexample :
    choose_new_master cE2 (some "A") cNodes2 = none ∧
    failoverStep cE2 (some "A") cNodes2 ["A", "B", "C"] =
      Except.ok (some "A", cNodes2, ([] : List Act)) ∧
    some "A" ≠ (none : Option String) := by
  refine ⟨rfl, rfl, ?_⟩
  decide

/-- C3 (amended): on an ambiguous election during failover, no
`set_writer` call is made (the trace is empty) and the snapshot's
primary pointer retains its previous value, the dead former primary —
it is not cleared to none; the state is unchanged, so every subsequent
tick with the same observations retries the election and again
promotes nothing. -/
theorem ambiguous_no_promotion_master_retained (env : Env) (m : String)
    (nodes : AllNodes) (recognized : List String)
    (hrec : recognized.contains m = true) (hoff : env.online m = false)
    (hamb : choose_new_master env (some m) nodes = none) :
    failoverStep env (some m) nodes recognized =
      Except.ok (some m, nodes, []) := by
  have hmem : m ∈ recognized := by simpa using hrec
  simp [failoverStep, hmem, hoff, Bind.bind, Except.bind, hamb]

/-- Witness for C3 (amended): the ambiguous fixture keeps `A` as the
recorded primary with an empty trace. -/
theorem ambiguous_no_promotion_master_retained_witness :
    failoverStep cE2 (some "A") cNodes2 ["A", "B", "C"] =
      Except.ok (some "A", cNodes2, []) :=
  ambiguous_no_promotion_master_retained cE2 "A" cNodes2 ["A", "B", "C"]
    (by decide) rfl rfl

/-- Helper: a hostname that is not recognized cannot be a key of the
pruned node map. -/
theorem lookup_prune_none (recognized : List String) (m : String)
    (hm : recognized.contains m = false) :
    ∀ nodes : AllNodes, List.lookup m (pruneNodes nodes recognized) = none := by
  intro nodes
  induction nodes with
  | nil => rfl
  | cons p rest ih =>
      obtain ⟨k, v⟩ := p
      cases hk : recognized.contains k with
      | false =>
          have hk' : k ∉ recognized := by simpa using hk
          have hstep : pruneNodes ((k, v) :: rest) recognized =
              pruneNodes rest recognized := by
            simp [pruneNodes, List.filter_cons, hk']
          rw [hstep]
          exact ih
      | true =>
          have hk' : k ∈ recognized := by simpa using hk
          have hstep : pruneNodes ((k, v) :: rest) recognized =
              (k, v) :: pruneNodes rest recognized := by
            simp [pruneNodes, List.filter_cons, hk']
          rw [hstep]
          have hne : (m == k) = false := by
            apply beq_eq_false_iff_ne.mpr
            intro heq
            rw [heq] at hm
            rw [hm] at hk
            exact absurd hk Bool.false_ne_true
          simp only [List.lookup, hne]
          exact ih

/-- C5 (the code bug): whenever the recorded primary is absent from
the proxy's recognized set, the prune loop has already removed it from
`ALL_NODES` (which it pruned against the same set earlier in the
tick), so the unconditional `del ALL_NODES[CURRENT_MASTER]` in the
primary-check branch always raises `KeyError`: the step never
completes, and no failover is initiated — the claim describes the
clearly intended behavior, the code crashes instead. -/
theorem prune_then_failover_keyerror (env : Env) (m : String)
    (nodes : AllNodes) (recognized : List String)
    (hm : recognized.contains m = false) :
    pruneThenFailover env (some m) nodes recognized =
      Except.error ("KeyError: " ++ m) := by
  have hlook := lookup_prune_none recognized m hm nodes
  have hmem : m ∉ recognized := by simpa using hm
  simp [pruneThenFailover, failoverStep, hmem, delKey, hlook, Bind.bind, Except.bind]

/-- Witness for C5: the recorded primary `A` vanishes from the
recognized set `[B]`; the prune-then-primary-check sequence raises
`KeyError: A` instead of electing a replacement. -/
theorem prune_then_failover_keyerror_witness :
    pruneThenFailover cE1 (some "A")
        [("A", NStatus.online), ("B", NStatus.online)] ["B"] =
      Except.error ("KeyError: " ++ "A") :=
  prune_then_failover_keyerror cE1 "A" _ _ (by decide)

/-- Helper: rewriting a key that no pair of the list carries is the
identity on the list. -/
theorem map_setKey_id (k : String) (v : NStatus) :
    ∀ rest : AllNodes, (∀ q ∈ rest, q.1 ≠ k) →
      rest.map (fun p => if p.1 == k then (p.1, v) else p) = rest := by
  intro rest
  induction rest with
  | nil => intro _; rfl
  | cons q rs ih =>
      intro h
      have hq : q.1 ≠ k := h q (List.mem_cons_self _ _)
      have hqb : (q.1 == k) = false := beq_eq_false_iff_ne.mpr hq
      rw [List.map_cons, ih (fun r hr => h r (List.mem_cons_of_mem _ hr))]
      simp [hqb]

/-- Helper: writing a key its already-recorded value back into a
duplicate-free node map leaves the map unchanged. -/
theorem setKey_lookup_self (k : String) (v : NStatus) :
    ∀ nodes : AllNodes, (nodes.map Prod.fst).Nodup →
      List.lookup k nodes = some v → setKey nodes k v = nodes := by
  intro nodes
  induction nodes with
  | nil => intro _ hl; simp [List.lookup] at hl
  | cons p rest ih =>
      intro hnodup hl
      obtain ⟨a, b⟩ := p
      rw [List.map_cons] at hnodup
      obtain ⟨hna, hnr⟩ := List.nodup_cons.mp hnodup
      cases hka : (k == a) with
      | true =>
          have hkeq : k = a := eq_of_beq hka
          have hbv : b = v := by
            rw [hkeq] at hl
            simpa [List.lookup] using hl
          have hrest : ∀ q ∈ rest, q.1 ≠ k := by
            intro q hqm heq
            apply hna
            have hqa : q.1 = (a, b).1 := heq.trans hkeq
            rw [← hqa]
            exact List.mem_map_of_mem Prod.fst hqm
          have hsome : (List.lookup k ((a, b) :: rest)).isSome := by rw [hl]; rfl
          have hab : ((a, b).1 == k) = true := by
            simpa using (beq_iff_eq.mpr hkeq.symm)
          unfold setKey
          rw [if_pos hsome, List.map_cons]
          simp only [hab, if_pos]
          rw [map_setKey_id k v rest hrest, hbv]
      | false =>
          have hl' : List.lookup k rest = some v := by
            simpa [List.lookup, hka] using hl
          have hih := ih hnr hl'
          have hsome : (List.lookup k ((a, b) :: rest)).isSome := by rw [hl]; rfl
          have hsome' : (List.lookup k rest).isSome := by rw [hl']; rfl
          have hkne : k ≠ a := beq_eq_false_iff_ne.mp hka
          have hak : ((a, b).1 == k) = false := beq_eq_false_iff_ne.mpr hkne.symm
          unfold setKey
          rw [if_pos hsome, List.map_cons]
          unfold setKey at hih
          rw [if_pos hsome'] at hih
          rw [show (if ((a, b).1 == k) then ((a, b).1, v) else (a, b)) = (a, b) from by
            simp [hak]]
          rw [hih]

/-- Helper: on a reachable, already-healthy replica recorded online,
the reconcile body re-issues the online status write and leaves the
node map unchanged. -/
theorem reconcileNode_stable (env : Env) (m node : String) (nodes : AllNodes)
    (hnodup : (nodes.map Prod.fst).Nodup)
    (hon : env.online node = true) (hconn : env.connectOk node = true)
    (hok : isHealthyReplicaOf m (env.repStatus node) = true)
    (hlook : List.lookup node nodes = some NStatus.online) :
    reconcileNode env m nodes node =
      (nodes, [Act.observeStatus node, Act.setStatus node "ONLINE"]) := by
  have hsrs := srs_healthy env m node hconn hok
  have hset := setKey_lookup_self node NStatus.online nodes hnodup hlook
  simp [reconcileNode, hlook, hon, hsrs, hset]

/-- Helper: over a fully healthy recognized set, the reconcile phase
keeps the node map unchanged and its only proxy writes are online
status re-assertions. -/
theorem reconcileStep_stable (env : Env) (m : String) (nodes : AllNodes)
    (hnodup : (nodes.map Prod.fst).Nodup) :
    ∀ recognized : List String,
      (∀ n ∈ recognized, n ≠ m →
        env.online n = true ∧ env.connectOk n = true ∧
        isHealthyReplicaOf m (env.repStatus n) = true ∧
        List.lookup n nodes = some NStatus.online) →
      (reconcileStep env m nodes recognized).1 = nodes ∧
      ∀ a ∈ (reconcileStep env m nodes recognized).2,
        a.isProxyWrite = true → ∃ n, a = Act.setStatus n "ONLINE" := by
  intro recognized
  induction recognized with
  | nil =>
      intro _
      refine ⟨rfl, ?_⟩
      intro a ha
      simp [reconcileStep] at ha
  | cons node rest ih =>
      intro h
      obtain ⟨ih1, ih2⟩ := ih (fun n hn hne => h n (List.mem_cons_of_mem _ hn) hne)
      by_cases hnm : node = m
      · have hstep : reconcileStep env m nodes (node :: rest) =
            reconcileStep env m nodes rest := by
          simp [reconcileStep, hnm]
        rw [hstep]
        exact ⟨ih1, ih2⟩
      · obtain ⟨hon, hconn, hok, hlook⟩ := h node (List.mem_cons_self _ _) hnm
        have hnode := reconcileNode_stable env m node nodes hnodup hon hconn hok hlook
        have hstep : reconcileStep env m nodes (node :: rest) =
            ((reconcileStep env m nodes rest).1,
              [Act.observeStatus node, Act.setStatus node "ONLINE"] ++
                (reconcileStep env m nodes rest).2) := by
          simp [reconcileStep, hnm, hnode]
        rw [hstep]
        refine ⟨ih1, ?_⟩
        intro a ha hw
        rcases List.mem_append.mp ha with h1 | h2
        · simp only [List.mem_cons, List.not_mem_nil, or_false] at h1
          rcases h1 with rfl | rfl
          · simp [Act.isProxyWrite] at hw
          · exact ⟨node, rfl⟩
        · exact ih2 a h2 hw

/-- Counterexample for C4: in the fully healthy three-node steady
state, the second of two successive reconcile runs still issues proxy
mutations — the idempotent `set_proxysql_status(…, "online")` writes
for each healthy replica — where the claim says the second run issues
none. -/
theorem reconcile_second_run_writes_counterexample :
    (reconcileStep cE4 "A" (reconcileStep cE4 "A" cNodes4 ["A", "B", "C"]).1
        ["A", "B", "C"]).2.any Act.isProxyWrite = true := rfl

/-- C4 (amended): when every recognized non-master node is a reachable
healthy replica of the current master already recorded online, the
reconcile phase leaves the node map unchanged, the only proxy writes
it issues are online status re-assertions (no writer change, no
quarantine move), and a second run in succession is identical to the
first — including those re-issued status writes. -/
theorem reconcile_stable_idempotent (env : Env) (m : String) (nodes : AllNodes)
    (recognized : List String)
    (hnodup : (nodes.map Prod.fst).Nodup)
    (h : ∀ n ∈ recognized, n ≠ m →
      env.online n = true ∧ env.connectOk n = true ∧
      isHealthyReplicaOf m (env.repStatus n) = true ∧
      List.lookup n nodes = some NStatus.online) :
    (reconcileStep env m nodes recognized).1 = nodes ∧
    (∀ a ∈ (reconcileStep env m nodes recognized).2,
      a.isProxyWrite = true → ∃ n, a = Act.setStatus n "ONLINE") ∧
    reconcileStep env m (reconcileStep env m nodes recognized).1 recognized =
      reconcileStep env m nodes recognized := by
  obtain ⟨h1, h2⟩ := reconcileStep_stable env m nodes hnodup recognized h
  refine ⟨h1, h2, ?_⟩
  rw [h1]

/-- Witness for C4 (amended): the healthy three-node fixture is left
unchanged by the reconcile phase. -/
theorem reconcile_stable_idempotent_witness :
    (reconcileStep cE4 "A" cNodes4 ["A", "B", "C"]).1 = cNodes4 :=
  (reconcile_stable_idempotent cE4 "A" cNodes4 ["A", "B", "C"]
    (by decide) (by decide)).1

/-- Helper: `any` over a filtered list. -/
theorem any_filter {α : Type} (p q : α → Bool) :
    ∀ l : List α, (l.filter p).any q = l.any (fun x => p x && q x) := by
  intro l
  induction l with
  | nil => rfl
  | cons x xs ih =>
      cases hp : p x with
      | true => simp [List.filter_cons, hp, ih]
      | false => simp [List.filter_cons, hp, ih]

/-- Helper: `all` over a filtered list. -/
theorem all_filter {α : Type} (p q : α → Bool) :
    ∀ l : List α, (l.filter p).all q = l.all (fun x => !p x || q x) := by
  intro l
  induction l with
  | nil => rfl
  | cons x xs ih =>
      cases hp : p x with
      | true => simp [List.filter_cons, hp, ih]
      | false => simp [List.filter_cons, hp, ih]

/-- Helper: `any` over a filtered-then-mapped list. -/
theorem any_filter_map {α β : Type} (p : α → Bool) (f : α → β) (q : β → Bool) :
    ∀ l : List α, ((l.filter p).map f).any q = l.any (fun x => p x && q (f x)) := by
  intro l
  induction l with
  | nil => rfl
  | cons x xs ih =>
      cases hp : p x with
      | true => simp [List.filter_cons, hp, ih]
      | false => simp [List.filter_cons, hp, ih]

/-- Helper: `all` over a filtered-then-mapped list. -/
theorem all_filter_map {α β : Type} (p : α → Bool) (f : α → β) (q : β → Bool) :
    ∀ l : List α, ((l.filter p).map f).all q = l.all (fun x => !p x || q (f x)) := by
  intro l
  induction l with
  | nil => rfl
  | cons x xs ih =>
      cases hp : p x with
      | true => simp [List.filter_cons, hp, ih]
      | false => simp [List.filter_cons, hp, ih]

/-- Helper: the quarantine check of the grouped entries of `n`, pushed
back to the raw rows. -/
theorem entries_any_30 (rows : Table) (groups : List Nat) (n : String) :
    (nodeEntries (queriedRows rows groups) n).any (fun e => e.1 == 30) =
      rows.any (fun r => groups.contains r.2.1 && (r.1 == n && r.2.1 == 30)) := by
  unfold nodeEntries queriedRows
  rw [any_filter_map, any_filter]

/-- Helper: the all-ONLINE check of the grouped entries of `n`, pushed
back to the raw rows. -/
theorem entries_all_online (rows : Table) (groups : List Nat) (n : String) :
    (nodeEntries (queriedRows rows groups) n).all (fun e => e.2 == "ONLINE") =
      rows.all (fun r =>
        !groups.contains r.2.1 || (!(r.1 == n) || r.2.2.toUpper == "ONLINE")) := by
  unfold nodeEntries queriedRows
  rw [all_filter_map, all_filter]

/-- Helper: membership in the first-occurrence deduplication with an
accumulator of already-seen keys. -/
theorem mem_dedupFirstAux :
    ∀ (l seen : List String) (x : String),
      x ∈ dedupFirstAux seen l ↔ (x ∈ l ∧ seen.contains x = false) := by
  intro l
  induction l with
  | nil => intro seen x; simp [dedupFirstAux]
  | cons y ys ih =>
      intro seen x
      cases hy : seen.contains y with
      | true =>
          have hy' : y ∈ seen := by simpa using hy
          rw [show dedupFirstAux seen (y :: ys) = dedupFirstAux seen ys from by
            simp [dedupFirstAux, hy']]
          rw [ih seen x]
          constructor
          · rintro ⟨hx, hs⟩
            exact ⟨List.mem_cons_of_mem _ hx, hs⟩
          · rintro ⟨hx, hs⟩
            rcases List.mem_cons.mp hx with heq | hx'
            · rw [heq] at hs
              rw [hs] at hy
              exact absurd hy Bool.false_ne_true
            · exact ⟨hx', hs⟩
      | false =>
          have hy' : y ∉ seen := by simpa using hy
          rw [show dedupFirstAux seen (y :: ys) = y :: dedupFirstAux (y :: seen) ys from by
            simp [dedupFirstAux, hy']]
          constructor
          · intro hx
            rcases List.mem_cons.mp hx with heq | hx'
            · rw [heq]
              exact ⟨List.mem_cons_self _ _, hy⟩
            · obtain ⟨hys, hcs⟩ := (ih (y :: seen) x).mp hx'
              have hns : x ∉ y :: seen := by simpa using hcs
              have hseen : seen.contains x = false := by
                simpa using fun h => hns (List.mem_cons_of_mem _ h)
              exact ⟨List.mem_cons_of_mem _ hys, hseen⟩
          · rintro ⟨hx, hs⟩
            rcases List.mem_cons.mp hx with heq | hx'
            · rw [heq]
              exact List.mem_cons_self _ _
            · by_cases hxy : x = y
              · rw [hxy]
                exact List.mem_cons_self _ _
              · apply List.mem_cons_of_mem
                apply (ih (y :: seen) x).mpr
                refine ⟨hx', ?_⟩
                have hxs : x ∉ seen := by simpa using hs
                have hxys : x ∉ y :: seen := by
                  intro hmem
                  rcases List.mem_cons.mp hmem with h1 | h2
                  · exact hxy h1
                  · exact hxs h2
                simpa using hxys

/-- Helper: deduplication preserves membership. -/
theorem mem_dedupFirst (l : List String) (x : String) :
    x ∈ dedupFirst l ↔ x ∈ l := by
  rw [dedupFirst, mem_dedupFirstAux]
  simp

/-- Helper: looking up a key of `l` in the association list that pairs
each key of `l` with `f` of it yields `f` of the key. -/
theorem lookup_map_key (f : String → NStatus) :
    ∀ (l : List String) (n : String), n ∈ l →
      List.lookup n (l.map (fun k => (k, f k))) = some (f n) := by
  intro l
  induction l with
  | nil => intro n hn; simp at hn
  | cons k ks ih =>
      intro n hn
      rw [List.map_cons]
      cases hnk : (n == k) with
      | true =>
          have heq : n = k := eq_of_beq hnk
          simp [List.lookup, hnk, heq]
      | false =>
          have hn' : n ∈ ks := by
            rcases List.mem_cons.mp hn with heq | h
            · exact absurd heq (by simpa using hnk)
            · exact h
          simp only [List.lookup, hnk]
          exact ih n hn'

/-- C8: for every hostname with at least one row in the queried
groups, the unified status map produced by
`get_proxysql_state_from_nodes_in_host_groups` records exactly the
spec's hierarchy — `broken` if the node has any queried row in
hostgroup 30, else `online` if every queried row of the node has raw
status ONLINE (case-insensitively), else `offline`. -/
theorem get_proxysql_state_correct (rows : Table) (groups : List Nat) (n : String)
    (hmem : rows.any (fun r => r.1 == n && groups.contains r.2.1) = true) :
    List.lookup n (get_proxysql_state rows groups) =
      some (specUnifiedStatus rows groups n) := by
  obtain ⟨r, hr, hcond⟩ := List.any_eq_true.mp hmem
  simp only [Bool.and_eq_true] at hcond
  obtain ⟨hrn, hrg⟩ := hcond
  have hrec : r ∈ queriedRows rows groups :=
    List.mem_filter.mpr ⟨hr, hrg⟩
  have hnm : n ∈ (queriedRows rows groups).map (fun r => r.1) := by
    have h2 := List.mem_map_of_mem (fun r : Row => r.1) hrec
    rw [← eq_of_beq hrn]
    simpa using h2
  have hnd : n ∈ dedupFirst ((queriedRows rows groups).map (fun r => r.1)) :=
    (mem_dedupFirst _ n).mpr hnm
  rw [get_proxysql_state]
  rw [lookup_map_key
    (fun k => unifiedStatus (nodeEntries (queriedRows rows groups) k)) _ n hnd]
  rw [show unifiedStatus (nodeEntries (queriedRows rows groups) n) =
      specUnifiedStatus rows groups n from by
    rw [unifiedStatus, specUnifiedStatus, entries_any_30, entries_all_online]]

/-- Witness for C8: node `A` has rows `(10, ONLINE)` and
`(20, online)` and no quarantine row, so its unified status is
computed (and equals the spec formula, which here is `online`). -/
theorem get_proxysql_state_correct_witness :
    List.lookup "A"
        (get_proxysql_state
          [("A", 10, "ONLINE"), ("A", 20, "online"), ("B", 30, "SHUNNED")]
          [10, 20, 30]) =
      some (specUnifiedStatus
        [("A", 10, "ONLINE"), ("A", 20, "online"), ("B", 30, "SHUNNED")]
        [10, 20, 30] "A") :=
  get_proxysql_state_correct _ _ "A" (by decide)

end Orchestrator
